import Mathlib

/-!
Verification development for the `atd` job-execution daemon (`src/atd.c`).

The daemon scans a spool directory for job files named
`<queue><serial:5hex><minutes:8hex>`, claims each due job with a hard link
whose name has the queue byte replaced by `=`, forks a child that validates
and runs the job, and admits at most one batch-class job per scan gated by
load average.  The definitions below are a shallow embedding of the two
functions `run_file` and `run_loop`: filesystem observations (stat results,
header parse results, load samples, link-claim outcomes) are inputs, and the
filesystem actions the code performs are recorded as explicit event lists.
-/

/- ===== Filename encoding (atd.c:579 `sscanf("%c%5lx%8lx")`, atd.c:240) ===== -/

/-- `#define CHECK_INTERVAL 3600` (atd.c:89): the lock staleness window and
the default scan ceiling, in seconds. -/
def CHECK_INTERVAL : Int := 3600

/-- Lowercase hexadecimal digit for a value below 16 (out-of-range values give
a dummy digit; callers stay below 16). -/
def hexDigitChar : Nat → Char
  | 0 => '0' | 1 => '1' | 2 => '2' | 3 => '3' | 4 => '4' | 5 => '5'
  | 6 => '6' | 7 => '7' | 8 => '8' | 9 => '9' | 10 => 'a' | 11 => 'b'
  | 12 => 'c' | 13 => 'd' | 14 => 'e' | 15 => 'f' | _ => '0'

/-- Value of a hexadecimal digit character, as accepted by `sscanf` `%x`
(both letter cases). -/
def hexVal (c : Char) : Option Nat :=
  if c = '0' then some 0 else if c = '1' then some 1 else if c = '2' then some 2
  else if c = '3' then some 3 else if c = '4' then some 4 else if c = '5' then some 5
  else if c = '6' then some 6 else if c = '7' then some 7 else if c = '8' then some 8
  else if c = '9' then some 9 else if c = 'a' then some 10 else if c = 'b' then some 11
  else if c = 'c' then some 12 else if c = 'd' then some 13 else if c = 'e' then some 14
  else if c = 'f' then some 15 else if c = 'A' then some 10 else if c = 'B' then some 11
  else if c = 'C' then some 12 else if c = 'D' then some 13 else if c = 'E' then some 14
  else if c = 'F' then some 15 else none

/-- `hexVal` with default 0 (only applied to known hex digits). -/
def hexValD (c : Char) : Nat := (hexVal c).getD 0

/-- Whether `c` is a hexadecimal digit (either letter case). -/
def isHexDigit (c : Char) : Bool := (hexVal c).isSome

/-- The sixteen lowercase hexadecimal digit characters. -/
def lowHexChars : List Char := "0123456789abcdef".data

/-- Whether `c` is a lowercase hexadecimal digit, the alphabet the encoder
emits. -/
def isLowerHex (c : Char) : Bool := decide (c ∈ lowHexChars)

/-- Zero-padded lowercase hexadecimal rendering of `n` in exactly `w` digits,
most significant digit first. -/
def toHexPad : Nat → Nat → List Char
  | 0, _ => []
  | w + 1, n => toHexPad w (n / 16) ++ [hexDigitChar (n % 16)]

/-- Numeric value of a string of hexadecimal digits, most significant first. -/
def hexToNat (ds : List Char) : Nat :=
  ds.foldl (fun a c => a * 16 + hexValD c) 0

/-- Greedy scan of at most `w` hexadecimal digits, as a `%wlx` conversion
consumes them; returns the digits and the unconsumed remainder. -/
def takeHex : Nat → List Char → List Char × List Char
  | 0, cs => ([], cs)
  | _ + 1, [] => ([], [])
  | w + 1, c :: cs =>
    if isHexDigit c then
      let p := takeHex w cs
      (c :: p.1, p.2)
    else ([], c :: cs)

/-- The filename decoder: `sscanf(d_name, "%c%5lx%8lx", &queue, &jobno, &ctm)`
(atd.c:579).  One byte of queue class, then up to five hex digits of serial,
then up to eight hex digits of scheduled minute; `none` when the conversion
count would be below 3.  Trailing bytes are ignored, as `sscanf` ignores them. -/
def parseJobName (s : String) : Option (Char × Nat × Nat) :=
  match s.data with
  | [] => none
  | q :: rest =>
    let p1 := takeHex 5 rest
    if p1.1 = [] then none
    else
      let p2 := takeHex 8 p1.2
      if p2.1 = [] then none
      else some (q, hexToNat p1.1, hexToNat p2.1)

/-- Modelled from the spec: the job-filename encoder lives in the submission
tool `at`, which is not part of this tree; section 6 of the spec fixes the
format as 1 queue-class byte, 5 hex digits of serial, 8 hex digits of
scheduled minute (zero-padded, as the 5/8 digit widths require). -/
def encodeJobName (q : Char) (serial minute : Nat) : String :=
  String.mk (q :: (toHexPad 5 serial ++ toHexPad 8 minute))

/-- First character of a string, with a dummy default for the empty string. -/
def headCh (s : String) : Char := s.data.headD ' '

/-- C-locale `isupper` on the ASCII range (atd.c:610, atd.c:180). -/
def isupperC (c : Char) : Bool := 65 ≤ c.toNat && c.toNat ≤ 90

/-- C-locale `islower` on the ASCII range (atd.c:610). -/
def islowerC (c : Char) : Bool := 97 ≤ c.toNat && c.toNat ≤ 122

/-- `isbatch` (atd.c:177): a queue class is batch when uppercase or `b`. -/
def isbatch (c : Char) : Bool := isupperC c || c == 'b'

/-- A well-formed job filename: a queue-class letter followed by exactly
13 lowercase hexadecimal digits (5 of serial, 8 of scheduled minute). -/
def validJobName (f : String) : Bool :=
  match f.data with
  | [] => false
  | q :: ds => (isupperC q || islowerC q) && ds.length == 13 && ds.all isLowerHex

/-- Sign of C `strcmp` on the underlying byte lists (ASCII filenames), used
by the batch-candidate selection (atd.c:654). -/
def strcmpL : List Char → List Char → Int
  | [], [] => 0
  | [], _ :: _ => -1
  | _ :: _, [] => 1
  | a :: as, b :: bs =>
    if a.toNat < b.toNat then -1
    else if b.toNat < a.toNat then 1
    else strcmpL as bs

/-- The lock name for a job file: the queue byte is replaced by `=`
(atd.c:246, atd.c:621). -/
def lockName (s : String) : String :=
  match s.data with
  | [] => String.mk []
  | _ :: t => String.mk ('=' :: t)

/- ===== run_file: the per-job runner (atd.c:198) ===== -/

/-- The subset of `struct stat` the daemon inspects.  The three booleans model
the `S_ISREG`, `S_ISLNK` and `S_IXUSR` tests on `st_mode`. -/
structure Stat where
  st_dev : Nat
  st_ino : Nat
  st_nlink : Nat
  st_uid : Nat
  st_gid : Nat
  st_size : Nat
  isreg : Bool
  islnk : Bool
  ixusr : Bool
  deriving DecidableEq

/-- The three-field job header parsed by `fscanf` (atd.c:333):
`# atrun uid=<nuid> gid=<ngid>` and `# mail <mailname> <send_mail>`. -/
structure Header where
  nuid : Nat
  ngid : Nat
  mailname : String
  send_mail : Int
  deriving DecidableEq

/-- Inputs to the execution child forked by `run_file`, as observed from the
filesystem.  `uid`/`gid` are the owner ids captured at discovery and passed in
by `run_loop` (atd.c:663); the two stat records are the `fstat` of the opened
descriptor (atd.c:298) and the fresh `lstat` of the path (atd.c:301);
`header` is the `fscanf` result (`none` when fewer than 4 fields convert);
`sizeAfterHeader` and `finalSize` are the output-file sizes reported by
`fstat` right after the mail header is written (atd.c:379) and after the
interpreter child is waited for (atd.c:468). -/
structure RunInput where
  uid : Nat
  gid : Nat
  pwFound : Bool
  openOk : Bool
  fstatBuf : Stat
  lstatBuf : Stat
  header : Option Header
  sizeAfterHeader : Nat
  finalSize : Nat
  deriving DecidableEq

/-- Why the execution child gave up on a job (each is a `perr`/`pabort` site
in `run_file`). -/
inductive AbortReason where
  | noUser
  | openFail
  | symlink
  | changedUnderUs
  | extraLinks
  | wrongFormat
  | badRecipient
  | uidMismatch
  deriving DecidableEq

/-- Filesystem-visible actions of the execution child, in program order. -/
inductive Ev where
  | unlinkOriginal
  | unlinkOldOutput
  | createOutput
  | writeHeader
  | forkExec
  | waitChild
  | unlinkOutput
  | unlinkLock
  | sendMail
  | abort (r : AbortReason)
  deriving DecidableEq

/-- The integrity comparison of atd.c:308-310: the fresh `lstat` of the path
must agree with the `fstat` of the opened descriptor on device, inode, owner
uid/gid and size. -/
def statSame (l b : Stat) : Bool :=
  (l.st_dev == b.st_dev) && (l.st_ino == b.st_ino) && (l.st_uid == b.st_uid) &&
  (l.st_gid == b.st_gid) && (l.st_size == b.st_size)

/-- `mailname[0] == '-'` (atd.c:338). -/
def startsDash (s : String) : Bool :=
  match s.data with
  | c :: _ => c == '-'
  | [] => false

/-- The mail decision of atd.c:495:
`((send_mail != -1) && (buf.st_size != size)) || (send_mail == 1)`. -/
def mailDecision (send_mail : Int) (size final : Nat) : Bool :=
  (send_mail != -1 && final != size) || (send_mail == 1)

/-- The execution child of `run_file` (everything after the `fork` at
atd.c:267), as the list of filesystem actions it performs.  The checks appear
in source order: getpwuid (281), fopen (288), `S_ISLNK` (304), the
lstat-versus-fstat comparison (308), `st_nlink > 2` (314), header parse (333),
leading `-` in the recipient (338), header uid versus discovery uid (342).
Only after all of them does the child unlink the original job file (350), then
clear a leftover output file (360), create the output file (365), write the
mail header (374), fork and wait for the interpreter (399, 455), remove the
output file (485) and the lock (492), and finally decide about mail (495). -/
def runFileChild (i : RunInput) : List Ev :=
  if ¬ i.pwFound then [Ev.abort AbortReason.noUser]
  else if ¬ i.openOk then [Ev.abort AbortReason.openFail]
  else if i.lstatBuf.islnk then [Ev.abort AbortReason.symlink]
  else if ¬ statSame i.lstatBuf i.fstatBuf then [Ev.abort AbortReason.changedUnderUs]
  else if 2 < i.fstatBuf.st_nlink then [Ev.abort AbortReason.extraLinks]
  else
    match i.header with
    | none => [Ev.abort AbortReason.wrongFormat]
    | some h =>
      if startsDash h.mailname then [Ev.abort AbortReason.badRecipient]
      else if h.nuid ≠ i.uid then [Ev.abort AbortReason.uidMismatch]
      else
        [Ev.unlinkOriginal, Ev.unlinkOldOutput, Ev.createOutput, Ev.writeHeader,
         Ev.forkExec, Ev.waitChild, Ev.unlinkOutput, Ev.unlinkLock] ++
        (if mailDecision h.send_mail i.sizeAfterHeader i.finalSize
         then [Ev.sendMail] else [])

/-- All the validator checks of atd.c:281-344 in one predicate: the child
commits (unlinks the original) exactly when this holds. -/
def validationOk (i : RunInput) : Bool :=
  i.pwFound && i.openOk && !i.lstatBuf.islnk && statSame i.lstatBuf i.fstatBuf &&
  decide (i.fstatBuf.st_nlink ≤ 2) &&
  (match i.header with
   | none => false
   | some h => !startsDash h.mailname && (h.nuid == i.uid))

/-- The abort reasons the spec's Job Validator (section 4.3) is responsible
for, as opposed to the earlier user-lookup and open failures. -/
def isValidatorAbort : AbortReason → Bool
  | AbortReason.symlink => true
  | AbortReason.changedUnderUs => true
  | AbortReason.extraLinks => true
  | AbortReason.wrongFormat => true
  | AbortReason.badRecipient => true
  | AbortReason.uidMismatch => true
  | _ => false

/-- Whether the child run aborted inside the Validator. -/
def validatorAborted (i : RunInput) : Bool :=
  (runFileChild i).any fun e =>
    match e with
    | Ev.abort r => isValidatorAbort r
    | _ => false

/- ===== run_loop: the directory scan (atd.c:522) ===== -/

/-- Actions performed in the daemon process itself by a call to `run_file`.
`waitJob` stands for the daemon blocking until a job's execution finishes;
the source's `run_file` parent path (atd.c:267-275) frees its buffers and
returns right after `fork`, so no definition in this file ever emits it —
the blocking `waitpid` of atd.c:455 runs inside the forked child, and the
`SIGCHLD` handler (atd.c:147) merely discards statuses without blocking. -/
inductive PEv where
  | link (nm : String)
  | linkFailWarn (nm : String)
  | forkChild (nm : String)
  | waitJob (nm : String)
  deriving DecidableEq

/-- `run_file` as seen from the daemon process (atd.c:248-275): claim the
lock by hard link; on `EEXIST` log and return; on success fork the execution
child and return immediately.  `linkOk` is the filesystem's answer to the
atomic link attempt. -/
def runFileParent (nm : String) (linkOk : Bool) : List PEv :=
  if linkOk then [PEv.link nm, PEv.forkChild nm]
  else [PEv.linkFailWarn nm]

/-- A directory entry as the scan observes it: its name, the result of
`stat` on it (`none` when the entry vanished between `readdir` and `stat`,
atd.c:585), and whether a hard-link claim on it would succeed. -/
structure DirEnt where
  name : String
  st : Option Stat
  linkOk : Bool
  deriving DecidableEq

/-- The mutable state the per-entry body of `run_loop` updates, plus the
filesystem actions (`unlinks` of stale locks, `pevents` of `run_file`
calls) it performs. -/
structure ScanSt where
  next_job : Int
  nothing_to_do : Bool
  run_batch : Nat
  batch_name : String
  batch_uid : Nat
  batch_gid : Nat
  batch_queue : Char
  pevents : List PEv
  unlinks : List String
  deriving DecidableEq

/-- The scan state right before the `readdir` loop (atd.c:551, 570-574):
`next_job = now + CHECK_INTERVAL`, nothing to do yet, no batch candidate
(`batch_name` is the all-beating sentinel `"z2345678901234"`, and the ids are
the `(uid_t) -1` / `(gid_t) -1` sentinels, modelled as `2^32 - 1`). -/
def initScanSt (now : Int) : ScanSt :=
  { next_job := now + CHECK_INTERVAL
    nothing_to_do := true
    run_batch := 0
    batch_name := "z2345678901234"
    batch_uid := 4294967295
    batch_gid := 4294967295
    batch_queue := Char.ofNat 0
    pevents := []
    unlinks := [] }

/-- One iteration of the `readdir` loop (atd.c:576-666), in source order:
skip names that do not parse; skip entries whose `stat` failed or that are
not regular files; defer not-yet-executable entries (atd.c:592); for
`=`-sigil entries remove the lock when orphaned (`st_nlink == 1`) and stale
(atd.c:600-606); skip other non-letter queues; for still-locked entries
(`st_nlink > 1`) reclaim a stale lock and reschedule (atd.c:615-628); note
future jobs in `next_job`; track the best batch candidate (atd.c:647-660);
and run a due non-batch job via `run_file` (atd.c:661-665). -/
def processEntry (now : Int) (st : ScanSt) (e : DirEnt) : ScanSt :=
  match parseJobName e.name with
  | none => st
  | some (q, _, ctm) =>
    match e.st with
    | none => st
    | some b =>
      if ¬ b.isreg then st
      else if ¬ b.ixusr then { st with nothing_to_do := false }
      else if q = '=' then
        if b.st_nlink = 1 ∧ (ctm : Int) * 60 + CHECK_INTERVAL ≤ now then
          { st with unlinks := st.unlinks ++ [e.name] }
        else st
      else if ¬ (isupperC q ∨ islowerC q) then st
      else if 1 < b.st_nlink then
        if (ctm : Int) * 60 + CHECK_INTERVAL ≤ now then
          { st with unlinks := st.unlinks ++ [lockName e.name],
                    next_job := now, nothing_to_do := false }
        else st
      else
        let st1 := { st with nothing_to_do := false }
        if (ctm : Int) * 60 > now then
          if (ctm : Int) * 60 < st1.next_job then
            { st1 with next_job := (ctm : Int) * 60 }
          else st1
        else if isbatch q then
          let st2 := { st1 with run_batch := st1.run_batch + 1 }
          if strcmpL st2.batch_name.data e.name.data > 0 then
            { st2 with batch_name := e.name, batch_uid := b.st_uid,
                       batch_gid := b.st_gid, batch_queue := q }
          else st2
        else
          if (ctm : Int) * 60 ≤ now then
            { st1 with pevents := st1.pevents ++ runFileParent e.name e.linkOk }
          else st1

/-- Concatenation of the lists produced per element (the loop walks the
directory entries in iteration order). -/
def listFlat {α β : Type} (f : α → List β) : List α → List β
  | [] => []
  | a :: as => f a ++ listFlat f as

/-- The daemon-side events a single entry contributes: the `run_file` call of
atd.c:663 exactly when the entry survives every filter, is due now and is not
batch-class.  The condition chain mirrors `processEntry`. -/
def entrySpawn (now : Int) (e : DirEnt) : List PEv :=
  match parseJobName e.name with
  | none => []
  | some (q, _, ctm) =>
    match e.st with
    | none => []
    | some b =>
      if ¬ b.isreg then []
      else if ¬ b.ixusr then []
      else if q = '=' then []
      else if ¬ (isupperC q ∨ islowerC q) then []
      else if 1 < b.st_nlink then []
      else if (ctm : Int) * 60 > now then []
      else if isbatch q then []
      else if (ctm : Int) * 60 ≤ now then runFileParent e.name e.linkOk
      else []

/-- The `run_file` calls of one whole scan, in directory iteration order. -/
def dueJobSpawns (now : Int) (entries : List DirEnt) : List PEv :=
  listFlat (entrySpawn now) entries

/-- The name an entry contributes to the batch-candidate selection: exactly
when the entry survives every filter, is due now and is batch-class.  The
condition chain mirrors `processEntry`. -/
def entryBatchCand (now : Int) (e : DirEnt) : List String :=
  match parseJobName e.name with
  | none => []
  | some (q, _, ctm) =>
    match e.st with
    | none => []
    | some b =>
      if ¬ b.isreg then []
      else if ¬ b.ixusr then []
      else if q = '=' then []
      else if ¬ (isupperC q ∨ islowerC q) then []
      else if 1 < b.st_nlink then []
      else if (ctm : Int) * 60 > now then []
      else if isbatch q then [e.name]
      else []

/-- All due batch-class candidates of a scan, in iteration order. -/
def batchCandidates (now : Int) (entries : List DirEnt) : List String :=
  listFlat (entryBatchCand now) entries

/-- The selection step of atd.c:654: keep the `strcmp`-smaller name. -/
def pickMin (acc nm : String) : String :=
  if strcmpL acc.data nm.data > 0 then nm else acc

/-- The batch admission block of atd.c:670-685.  When a candidate exists
(`run_batch > 0`) and the admission window has opened (`next_batch <= now`),
the attempt first spends the interval (`next_batch = now + batch_interval`),
then samples the 1-minute load average (a failed `getloadavg`, fewer than one
sample, counts as load `0.0`, atd.c:675-677) and runs the candidate only when
the load is strictly below the ceiling.  Returns the admitted candidate (if
any), the new `next_batch`, and the new `run_batch`. -/
def batchAdmit (now : Int) (interval : Nat) (ceiling : Rat) (sample : Option Rat)
    (run_batch : Nat) (batch_name : String) (nb : Int) :
    Option String × Int × Nat :=
  if 0 < run_batch ∧ nb ≤ now then
    if (match sample with | none => (0 : Rat) | some x => x) < ceiling then
      (some batch_name, now + interval, run_batch - 1)
    else (none, now + interval, run_batch)
  else (none, nb, run_batch)

/-- Inputs of one scanning invocation of `run_loop`: the current time, the
`-b` batch interval, the `-l` load ceiling `load_avg`, the load sample
(`none` when `getloadavg` reports fewer than one sample), whether the batch
candidate's link claim would succeed, the directory listing, and the
`next_batch` value carried over from the previous cycle (`0` on the first
call, atd.c:538, 552). -/
structure CycleIn where
  now : Int
  batch_interval : Nat
  load_avg : Rat
  loadSample : Option Rat
  batchLinkOk : Bool
  entries : List DirEnt
  next_batch0 : Int

/-- Results of one scanning invocation of `run_loop`. -/
structure CycleOut where
  scan : ScanSt
  admitted : Option String
  next_batch : Int
  next_job : Int

/-- `if (next_batch == 0) next_batch = now;` (atd.c:552-553). -/
def nbInit (ci : CycleIn) : Int :=
  if ci.next_batch0 = 0 then ci.now else ci.next_batch0

/-- The state after the whole `readdir` loop. -/
def scanResult (ci : CycleIn) : ScanSt :=
  List.foldl (processEntry ci.now) (initScanSt ci.now) ci.entries

/-- One scanning invocation of `run_loop` (atd.c:522-691), without the
unchanged-directory early return (atd.c:563, a pure optimization): walk the
entries, then try to admit the single batch candidate, then pull `next_job`
back to `next_batch` when batch work remains (atd.c:686-689). -/
def runLoopCycle (ci : CycleIn) : CycleOut :=
  let st0 := scanResult ci
  let r := batchAdmit ci.now ci.batch_interval ci.load_avg ci.loadSample
             st0.run_batch st0.batch_name (nbInit ci)
  let st1 :=
    match r.1 with
    | some nm => { st0 with pevents := st0.pevents ++ runFileParent nm ci.batchLinkOk,
                            run_batch := r.2.2 }
    | none => { st0 with run_batch := r.2.2 }
  let st2 :=
    if 0 < st1.run_batch ∧ r.2.1 < st1.next_job then
      { st1 with nothing_to_do := false, next_job := r.2.1 }
    else st1
  { scan := st2, admitted := r.1, next_batch := r.2.1, next_job := st2.next_job }

/-- Whether a daemon-side event is a blocking wait on a job. -/
def isWaitEv : PEv → Bool
  | PEv.waitJob _ => true
  | _ => false

/- ===== Concrete scenarios used by witnesses and counterexamples ===== -/

/-- A healthy job file: regular, two links (job + lock), owned by uid 1000. -/
def jstatOk : Stat := ⟨1, 77, 2, 1000, 1000, 420, true, false, true⟩

/-- A well-formed header: uid/gid 1000, recipient `alice`, conditional mail. -/
def hdrOk : Header := ⟨1000, 1000, "alice", 0⟩

/-- A run input on which every validator check passes and the output grew. -/
def inpOk : RunInput := ⟨1000, 1000, true, true, jstatOk, jstatOk, some hdrOk, 57, 60⟩

/-- A run input whose path turned out to be a symbolic link at `lstat` time. -/
def c1badInp : RunInput :=
  ⟨1000, 1000, true, true, jstatOk, ⟨1, 77, 2, 1000, 1000, 420, true, true, true⟩,
   some hdrOk, 57, 60⟩

/-- The job of `c1badInp` as the next scan sees it: still locked (two links). -/
def c1entLocked : DirEnt :=
  ⟨"a0000100000000", some ⟨1, 77, 2, 1000, 1000, 420, true, false, true⟩, true⟩

/-- A scan at time 10000 (past the staleness window of the job scheduled at
minute 0): the stale lock gets reclaimed. -/
def c1ciStale : CycleIn := ⟨10000, 60, 8, some 0, true, [c1entLocked], 99999⟩

/-- The same job after lock reclamation: a single link again. -/
def c1entFree : DirEnt :=
  ⟨"a0000100000000", some ⟨1, 77, 1, 1000, 1000, 420, true, false, true⟩, true⟩

/-- The scan after reclamation: the aborted job is claimed and forked again. -/
def c1ciRetry : CycleIn := ⟨13600, 60, 8, some 0, true, [c1entFree], 99999⟩

/-- Discovery-time metadata of a job that is then substituted before the
privileged open: inode 50, size 500. -/
def c2dstat : Stat := ⟨1, 50, 1, 1000, 1000, 500, true, false, true⟩

/-- The substituted file the open and the re-check both see: inode 51,
size 600, same owner. -/
def c2fst : Stat := ⟨1, 51, 2, 1000, 1000, 600, true, false, true⟩

/-- Run input after the substitution: `lstat` and `fstat` agree with each
other (but not with discovery), and the header repeats the discovery uid. -/
def c2inp : RunInput := ⟨1000, 1000, true, true, c2fst, c2fst, some hdrOk, 57, 57⟩

/-- Two due non-batch jobs in one scan. -/
def c3e1 : DirEnt :=
  ⟨"a0000100000000", some ⟨1, 70, 1, 1000, 1000, 100, true, false, true⟩, true⟩

/-- Second due non-batch job of the same scan. -/
def c3e2 : DirEnt :=
  ⟨"c0000200000000", some ⟨1, 71, 1, 1001, 1001, 100, true, false, true⟩, true⟩

/-- A scan holding the two due jobs `c3e1` and `c3e2`. -/
def c3ci : CycleIn := ⟨100, 60, 8, some 0, true, [c3e1, c3e2], 999⟩

/-- A due batch-class (`b`) job. -/
def c4entB : DirEnt :=
  ⟨"b0000100000000", some ⟨1, 80, 1, 1000, 1000, 100, true, false, true⟩, true⟩

/-- A scan with one due batch job, an open admission window and low load. -/
def c4ci : CycleIn := ⟨100, 60, 8, some 2, true, [c4entB], 90⟩

/-- A conditional-mail run whose output file shrank below its header size. -/
def c6inp : RunInput := ⟨1000, 1000, true, true, jstatOk, jstatOk, some hdrOk, 10, 5⟩

/-- A due batch candidate with the larger filename. -/
def c7e1 : DirEnt :=
  ⟨"B0000200000000", some ⟨1, 81, 1, 1000, 1000, 100, true, false, true⟩, true⟩

/-- A due batch candidate with the smaller filename. -/
def c7e2 : DirEnt :=
  ⟨"B0000100000000", some ⟨1, 82, 1, 1001, 1001, 100, true, false, true⟩, true⟩

/-- A scan holding the two due batch candidates `c7e1` and `c7e2`. -/
def c7ci : CycleIn := ⟨100, 60, 8, some 0, true, [c7e1, c7e2], 90⟩

/-- An orphaned (single-link) lock file scheduled at minute 0. -/
def c8ent : DirEnt :=
  ⟨"=0000100000000", some ⟨1, 77, 1, 1000, 1000, 420, true, false, true⟩, true⟩

/- ===== Lemmas: hexadecimal digits and the filename round trip ===== -/

lemma mem_lowHexChars_of_isLowerHex {c : Char} (h : isLowerHex c = true) :
    c ∈ lowHexChars := of_decide_eq_true h

lemma isLowerHex_hexDigitChar (n : Nat) (h : n < 16) :
    isLowerHex (hexDigitChar n) = true := by
  interval_cases n <;> decide

lemma isHexDigit_of_isLowerHex {c : Char} (h : isLowerHex c = true) :
    isHexDigit c = true := by
  have hm := mem_lowHexChars_of_isLowerHex h
  fin_cases hm <;> decide

lemma hexValD_lt_16 {c : Char} (h : isLowerHex c = true) : hexValD c < 16 := by
  have hm := mem_lowHexChars_of_isLowerHex h
  fin_cases hm <;> decide

lemma hexDigitChar_hexValD {c : Char} (h : isLowerHex c = true) :
    hexDigitChar (hexValD c) = c := by
  have hm := mem_lowHexChars_of_isLowerHex h
  fin_cases hm <;> decide

lemma hexValD_hexDigitChar (n : Nat) (h : n < 16) :
    hexValD (hexDigitChar n) = n := by
  interval_cases n <;> decide

lemma toHexPad_length (w n : Nat) : (toHexPad w n).length = w := by
  induction w generalizing n with
  | zero => rfl
  | succ w ih => simp [toHexPad, ih]

lemma toHexPad_lower (w n : Nat) : ∀ c ∈ toHexPad w n, isLowerHex c = true := by
  induction w generalizing n with
  | zero => intro c hc; simp [toHexPad] at hc
  | succ w ih =>
    intro c hc
    simp only [toHexPad, List.mem_append, List.mem_singleton] at hc
    rcases hc with hc | hc
    · exact ih _ c hc
    · subst hc; exact isLowerHex_hexDigitChar _ (Nat.mod_lt _ (by norm_num))

lemma hexToNat_append_digit (xs : List Char) (c : Char) :
    hexToNat (xs ++ [c]) = hexToNat xs * 16 + hexValD c := by
  simp [hexToNat, List.foldl_append]

lemma hexToNat_toHexPad (w n : Nat) (h : n < 16 ^ w) :
    hexToNat (toHexPad w n) = n := by
  induction w generalizing n with
  | zero =>
    simp only [pow_zero, Nat.lt_one_iff] at h
    simp [h, toHexPad, hexToNat]
  | succ w ih =>
    have hdiv : n / 16 < 16 ^ w := by
      rw [Nat.div_lt_iff_lt_mul (by norm_num)]
      calc n < 16 ^ (w + 1) := h
        _ = 16 ^ w * 16 := by ring
    rw [toHexPad, hexToNat_append_digit, ih _ hdiv,
        hexValD_hexDigitChar _ (Nat.mod_lt _ (by norm_num))]
    omega

lemma takeHex_exact (ds rest : List Char) (h : ∀ c ∈ ds, isHexDigit c = true) :
    takeHex ds.length (ds ++ rest) = (ds, rest) := by
  induction ds with
  | nil => rfl
  | cons c t ih =>
    have hc : isHexDigit c = true := h c (by simp)
    simp only [List.length_cons, List.cons_append, takeHex, hc, if_pos,
               List.append_eq]
    rw [ih (fun x hx => h x (by simp [hx]))]

lemma takeHex_exact_w (w : Nat) (ds rest : List Char) (hw : ds.length = w)
    (h : ∀ c ∈ ds, isHexDigit c = true) : takeHex w (ds ++ rest) = (ds, rest) := by
  subst hw; exact takeHex_exact ds rest h

lemma toHexPad_hexToNat (ds : List Char) (h : ∀ c ∈ ds, isLowerHex c = true) :
    toHexPad ds.length (hexToNat ds) = ds := by
  induction ds using List.reverseRecOn with
  | nil => rfl
  | append_singleton xs c ih =>
    have hc : isLowerHex c = true := h c (by simp)
    have hxs : ∀ x ∈ xs, isLowerHex x = true := fun x hx => h x (by simp [hx])
    have hv : hexValD c < 16 := hexValD_lt_16 hc
    rw [hexToNat_append_digit, List.length_append, List.length_singleton, toHexPad]
    have h1 : (hexToNat xs * 16 + hexValD c) / 16 = hexToNat xs := by omega
    have h2 : (hexToNat xs * 16 + hexValD c) % 16 = hexValD c := by omega
    rw [h1, h2, ih hxs, hexDigitChar_hexValD hc]

lemma parse_encode (q : Char) (s m : Nat) (hs : s < 16 ^ 5) (hm : m < 16 ^ 8) :
    parseJobName (encodeJobName q s m) = some (q, s, m) := by
  have h5hex : ∀ c ∈ toHexPad 5 s, isHexDigit c = true :=
    fun c hc => isHexDigit_of_isLowerHex (toHexPad_lower 5 s c hc)
  have h8hex : ∀ c ∈ toHexPad 8 m, isHexDigit c = true :=
    fun c hc => isHexDigit_of_isLowerHex (toHexPad_lower 8 m c hc)
  have ht5 : takeHex 5 (toHexPad 5 s ++ toHexPad 8 m) = (toHexPad 5 s, toHexPad 8 m) :=
    takeHex_exact_w 5 _ _ (toHexPad_length 5 s) h5hex
  have ht8 : takeHex 8 (toHexPad 8 m) = (toHexPad 8 m, []) := by
    have := takeHex_exact_w 8 (toHexPad 8 m) [] (toHexPad_length 8 m) h8hex
    simpa using this
  have h5ne : toHexPad 5 s ≠ [] := by
    intro hnil
    have := toHexPad_length 5 s
    rw [hnil] at this
    simp at this
  have h8ne : toHexPad 8 m ≠ [] := by
    intro hnil
    have := toHexPad_length 8 m
    rw [hnil] at this
    simp at this
  simp only [parseJobName, encodeJobName, ht5, ht8,
             hexToNat_toHexPad 5 s hs, hexToNat_toHexPad 8 m hm]
  simp [h5ne, h8ne]

lemma valid_shape (f : String) (hv : validJobName f = true) :
    ∃ q ds, f.data = q :: ds ∧ (isupperC q || islowerC q) = true ∧
      ds.length = 13 ∧ ∀ c ∈ ds, isLowerHex c = true := by
  cases hfd : f.data with
  | nil =>
    unfold validJobName at hv
    rw [hfd] at hv
    simp at hv
  | cons q ds =>
    unfold validJobName at hv
    rw [hfd] at hv
    simp only [Bool.and_eq_true, beq_iff_eq, List.all_eq_true] at hv
    exact ⟨q, ds, rfl, hv.1.1, hv.1.2, fun c hc => hv.2 c hc⟩

lemma valid_decode_encode (f : String) (hv : validJobName f = true) :
    parseJobName f =
      some (headCh f, hexToNat (f.data.tail.take 5), hexToNat (f.data.tail.drop 5)) ∧
    encodeJobName (headCh f) (hexToNat (f.data.tail.take 5))
      (hexToNat (f.data.tail.drop 5)) = f := by
  obtain ⟨q, ds, hf, hq, hlen, hall⟩ := valid_shape f hv
  have hd5len : (ds.take 5).length = 5 := by rw [List.length_take]; omega
  have hd8len : (ds.drop 5).length = 8 := by rw [List.length_drop]; omega
  have hsplit : ds.take 5 ++ ds.drop 5 = ds := List.take_append_drop 5 ds
  have h5low : ∀ c ∈ ds.take 5, isLowerHex c = true :=
    fun c hc => hall c (List.mem_of_mem_take hc)
  have h8low : ∀ c ∈ ds.drop 5, isLowerHex c = true :=
    fun c hc => hall c (List.mem_of_mem_drop hc)
  have ht5 := takeHex_exact (ds.take 5) (ds.drop 5)
    (fun c hc => isHexDigit_of_isLowerHex (h5low c hc))
  rw [hd5len, hsplit] at ht5
  have ht8 := takeHex_exact (ds.drop 5) []
    (fun c hc => isHexDigit_of_isLowerHex (h8low c hc))
  rw [hd8len] at ht8
  simp only [List.append_nil] at ht8
  have h5ne : ds.take 5 ≠ [] := by
    intro hnil; rw [hnil] at hd5len; simp at hd5len
  have h8ne : ds.drop 5 ≠ [] := by
    intro hnil; rw [hnil] at hd8len; simp at hd8len
  have hhead : headCh f = q := by rw [headCh, hf]; rfl
  have htail : f.data.tail = ds := by rw [hf]; rfl
  constructor
  · rw [hhead, htail, parseJobName.eq_def, hf]
    simp only [ht5, ht8]
    simp [h5ne, h8ne]
  · rw [hhead, htail, encodeJobName]
    have e5 := toHexPad_hexToNat (ds.take 5) h5low
    rw [hd5len] at e5
    have e8 := toHexPad_hexToNat (ds.drop 5) h8low
    rw [hd8len] at e8
    rw [e5, e8, hsplit, ← hf]

/- ===== Lemmas: strcmp as an order, and the fold that selects the minimum ===== -/

lemma strcmpL_self : ∀ a : List Char, strcmpL a a = 0 := by
  intro a
  induction a with
  | nil => rfl
  | cons x xs ih => simp [strcmpL, ih]

lemma strcmpL_swap : ∀ a b : List Char, strcmpL a b = - strcmpL b a := by
  intro a
  induction a with
  | nil => intro b; cases b <;> simp [strcmpL]
  | cons x xs ih =>
    intro b
    cases b with
    | nil => simp [strcmpL]
    | cons y ys =>
      simp only [strcmpL]
      split_ifs <;> first | omega | exact ih ys

lemma strcmpL_le_trans :
    ∀ a b c : List Char, strcmpL a b ≤ 0 → strcmpL b c ≤ 0 → strcmpL a c ≤ 0 := by
  intro a
  induction a with
  | nil =>
    intro b c _ _
    cases c <;> simp [strcmpL]
  | cons x xs ih =>
    intro b c h1 h2
    cases b with
    | nil => simp [strcmpL] at h1
    | cons y ys =>
      cases c with
      | nil => simp [strcmpL] at h2
      | cons z zs =>
        simp only [strcmpL] at h1 h2 ⊢
        split_ifs at h1 h2 ⊢ <;> first | omega | exact ih ys zs h1 h2

lemma strcmpL_head_gt (a b : Char) (as bs : List Char) (h : b.toNat < a.toNat) :
    strcmpL (a :: as) (b :: bs) > 0 := by
  simp only [strcmpL]
  split_ifs <;> omega

lemma foldl_pickMin_mem :
    ∀ (l : List String) (acc : String),
      List.foldl pickMin acc l = acc ∨ List.foldl pickMin acc l ∈ l := by
  intro l
  induction l with
  | nil => intro acc; left; rfl
  | cons x xs ih =>
    intro acc
    rcases ih (pickMin acc x) with h | h
    · rw [List.foldl_cons, h]
      unfold pickMin
      split_ifs
      · right; simp
      · left; rfl
    · right
      rw [List.foldl_cons]
      exact List.mem_cons_of_mem x h

lemma foldl_pickMin_le_acc :
    ∀ (l : List String) (acc : String),
      strcmpL (List.foldl pickMin acc l).data acc.data ≤ 0 := by
  intro l
  induction l with
  | nil => intro acc; simp [strcmpL_self]
  | cons x xs ih =>
    intro acc
    rw [List.foldl_cons]
    have hr := ih (pickMin acc x)
    by_cases hgt : strcmpL acc.data x.data > 0
    · have hx : pickMin acc x = x := by simp [pickMin, hgt]
      rw [hx] at hr
      have hxacc : strcmpL x.data acc.data ≤ 0 := by
        rw [strcmpL_swap]; omega
      rw [hx]
      exact strcmpL_le_trans _ _ _ hr hxacc
    · have hx : pickMin acc x = acc := by simp [pickMin, hgt]
      rw [hx] at hr
      rw [hx]
      exact hr

lemma foldl_pickMin_le_mem :
    ∀ (l : List String) (acc x : String), x ∈ l →
      strcmpL (List.foldl pickMin acc l).data x.data ≤ 0 := by
  intro l
  induction l with
  | nil => intro acc x hx; simp at hx
  | cons y ys ih =>
    intro acc x hx
    rw [List.foldl_cons]
    rcases List.mem_cons.mp hx with rfl | hx
    · have hacc := foldl_pickMin_le_acc ys (pickMin acc x)
      by_cases hgt : strcmpL acc.data x.data > 0
      · have hp : pickMin acc x = x := by simp [pickMin, hgt]
        rw [hp] at hacc ⊢
        exact hacc
      · have hp : pickMin acc x = acc := by simp [pickMin, hgt]
        rw [hp] at hacc ⊢
        exact strcmpL_le_trans _ _ _ hacc (by omega)
    · exact ih (pickMin acc y) x hx

/- ===== Lemmas: the execution child ===== -/

lemma validationOk_elim (i : RunInput) (h : validationOk i = true) :
    i.pwFound = true ∧ i.openOk = true ∧ i.lstatBuf.islnk = false ∧
    statSame i.lstatBuf i.fstatBuf = true ∧ i.fstatBuf.st_nlink ≤ 2 ∧
    ∃ hd, i.header = some hd ∧ startsDash hd.mailname = false ∧ hd.nuid = i.uid := by
  unfold validationOk at h
  cases hh : i.header with
  | none =>
    rw [hh] at h
    simp at h
  | some hd =>
    rw [hh] at h
    simp only [Bool.and_eq_true, Bool.not_eq_true', decide_eq_true_eq,
               beq_iff_eq] at h
    exact ⟨h.1.1.1.1.1, h.1.1.1.1.2, h.1.1.1.2, h.1.1.2, h.1.2,
           hd, rfl, h.2.1, h.2.2⟩

lemma runFileChild_ok (i : RunInput) (hd : Header) (hh : i.header = some hd)
    (h : validationOk i = true) :
    runFileChild i =
      [Ev.unlinkOriginal, Ev.unlinkOldOutput, Ev.createOutput, Ev.writeHeader,
       Ev.forkExec, Ev.waitChild, Ev.unlinkOutput, Ev.unlinkLock] ++
      (if mailDecision hd.send_mail i.sizeAfterHeader i.finalSize
       then [Ev.sendMail] else []) := by
  obtain ⟨h1, h2, h3, h4, h5, hd2, hh2, h6, h7⟩ := validationOk_elim i h
  rw [hh] at hh2
  injection hh2 with hdeq
  subst hdeq
  have h5n : ¬ (2 < i.fstatBuf.st_nlink) := by omega
  simp [runFileChild, h1, h2, h3, h4, h5n, hh, h6, h7]

lemma runFileChild_fail (i : RunInput) (h : validationOk i = false) :
    ∃ r, runFileChild i = [Ev.abort r] := by
  by_cases h1 : i.pwFound
  case neg => exact ⟨AbortReason.noUser, by simp [runFileChild, h1]⟩
  by_cases h2 : i.openOk
  case neg => exact ⟨AbortReason.openFail, by simp [runFileChild, h1, h2]⟩
  by_cases h3 : i.lstatBuf.islnk
  case pos => exact ⟨AbortReason.symlink, by simp [runFileChild, h1, h2, h3]⟩
  by_cases h4 : statSame i.lstatBuf i.fstatBuf
  case neg => exact ⟨AbortReason.changedUnderUs, by simp [runFileChild, h1, h2, h3, h4]⟩
  by_cases h5 : 2 < i.fstatBuf.st_nlink
  case pos => exact ⟨AbortReason.extraLinks, by simp [runFileChild, h1, h2, h3, h4, h5]⟩
  cases hh : i.header with
  | none => exact ⟨AbortReason.wrongFormat, by simp [runFileChild, h1, h2, h3, h4, h5, hh]⟩
  | some hd =>
    by_cases h6 : startsDash hd.mailname
    case pos =>
      exact ⟨AbortReason.badRecipient, by simp [runFileChild, h1, h2, h3, h4, h5, hh, h6]⟩
    by_cases h7 : hd.nuid = i.uid
    case neg =>
      exact ⟨AbortReason.uidMismatch, by simp [runFileChild, h1, h2, h3, h4, h5, hh, h6, h7]⟩
    exfalso
    have : validationOk i = true := by
      have h5n : i.fstatBuf.st_nlink ≤ 2 := by omega
      simp [validationOk, h1, h2, h3, h4, h5n, hh, h6, h7]
    rw [this] at h
    exact absurd h (by simp)

lemma unlinkOriginal_iff (i : RunInput) :
    Ev.unlinkOriginal ∈ runFileChild i ↔ validationOk i = true := by
  constructor
  · intro hm
    by_contra hno
    have hfalse : validationOk i = false := by
      cases hvo : validationOk i
      · rfl
      · exact absurd hvo hno
    obtain ⟨r, hr⟩ := runFileChild_fail i hfalse
    rw [hr] at hm
    simp at hm
  · intro hok
    obtain ⟨_, _, _, _, _, hd, hh, _, _⟩ := validationOk_elim i hok
    rw [runFileChild_ok i hd hh hok]
    simp

lemma forkExec_valid (i : RunInput) (hm : Ev.forkExec ∈ runFileChild i) :
    validationOk i = true := by
  by_contra hno
  have hfalse : validationOk i = false := by
    cases hvo : validationOk i
    · rfl
    · exact absurd hvo hno
  obtain ⟨r, hr⟩ := runFileChild_fail i hfalse
  rw [hr] at hm
  simp at hm

lemma statSame_elim (l b : Stat) (h : statSame l b = true) :
    l.st_dev = b.st_dev ∧ l.st_ino = b.st_ino ∧ l.st_uid = b.st_uid ∧
    l.st_gid = b.st_gid ∧ l.st_size = b.st_size := by
  simp only [statSame, Bool.and_eq_true, beq_iff_eq] at h
  exact ⟨h.1.1.1.1, h.1.1.1.2, h.1.1.2, h.1.2, h.2⟩

/- ===== Lemmas: the scan loop ===== -/

lemma processEntry_pevents (now : Int) (st : ScanSt) (e : DirEnt) :
    (processEntry now st e).pevents = st.pevents ++ entrySpawn now e := by
  cases hp : parseJobName e.name with
  | none => simp [processEntry, entrySpawn, hp]
  | some t =>
    obtain ⟨q, j, ctm⟩ := t
    cases hst : e.st with
    | none => simp [processEntry, entrySpawn, hp, hst]
    | some b =>
      simp only [processEntry, entrySpawn, hp, hst]
      split_ifs <;> simp

lemma processEntry_batch_name (now : Int) (st : ScanSt) (e : DirEnt) :
    (processEntry now st e).batch_name =
      List.foldl pickMin st.batch_name (entryBatchCand now e) := by
  cases hp : parseJobName e.name with
  | none => simp [processEntry, entryBatchCand, hp]
  | some t =>
    obtain ⟨q, j, ctm⟩ := t
    cases hst : e.st with
    | none => simp [processEntry, entryBatchCand, hp, hst]
    | some b =>
      simp only [processEntry, entryBatchCand, hp, hst]
      (split_ifs <;> simp_all [pickMin])
      rw [if_neg (by omega)]

lemma scan_pevents (now : Int) :
    ∀ (es : List DirEnt) (st : ScanSt),
      (List.foldl (processEntry now) st es).pevents =
        st.pevents ++ listFlat (entrySpawn now) es := by
  intro es
  induction es with
  | nil => intro st; simp [listFlat]
  | cons e es ih =>
    intro st
    rw [List.foldl_cons, ih, processEntry_pevents, listFlat, List.append_assoc]

lemma scan_batch_name (now : Int) :
    ∀ (es : List DirEnt) (st : ScanSt),
      (List.foldl (processEntry now) st es).batch_name =
        List.foldl pickMin st.batch_name (listFlat (entryBatchCand now) es) := by
  intro es
  induction es with
  | nil => intro st; simp [listFlat]
  | cons e es ih =>
    intro st
    rw [List.foldl_cons, ih, processEntry_batch_name, listFlat, List.foldl_append]

lemma mem_listFlat {α β : Type} (f : α → List β) (x : β) :
    ∀ l : List α, x ∈ listFlat f l ↔ ∃ a ∈ l, x ∈ f a := by
  intro l
  induction l with
  | nil => simp [listFlat]
  | cons a as ih => simp [listFlat, ih]

lemma waitJob_not_parent (nm s : String) (b : Bool) :
    PEv.waitJob nm ∉ runFileParent s b := by
  unfold runFileParent
  split <;> simp

lemma entrySpawn_cases (now : Int) (e : DirEnt) :
    entrySpawn now e = runFileParent e.name e.linkOk ∨ entrySpawn now e = [] := by
  cases hp : parseJobName e.name with
  | none => right; simp [entrySpawn, hp]
  | some t =>
    obtain ⟨q, j, ctm⟩ := t
    cases hst : e.st with
    | none => right; simp [entrySpawn, hp, hst]
    | some b =>
      simp only [entrySpawn, hp, hst]
      split_ifs <;> simp

lemma waitJob_not_spawns (nm : String) (now : Int) (es : List DirEnt) :
    PEv.waitJob nm ∉ listFlat (entrySpawn now) es := by
  intro hm
  obtain ⟨e, _, hme⟩ := (mem_listFlat (entrySpawn now) _ es).mp hm
  rcases entrySpawn_cases now e with hc | hc
  · rw [hc] at hme
    exact waitJob_not_parent nm e.name e.linkOk hme
  · rw [hc] at hme
    simp at hme

lemma parse_shape (s : String) (q : Char) (a b : Nat)
    (h : parseJobName s = some (q, a, b)) : ∃ t, s.data = q :: t := by
  unfold parseJobName at h
  cases hd : s.data with
  | nil => rw [hd] at h; simp at h
  | cons c t =>
    rw [hd] at h
    simp only at h
    by_cases h1 : (takeHex 5 t).1 = []
    · rw [if_pos h1] at h
      exact Option.noConfusion h
    · rw [if_neg h1] at h
      by_cases h2 : (takeHex 8 (takeHex 5 t).2).1 = []
      · rw [if_pos h2] at h
        exact Option.noConfusion h
      · rw [if_neg h2] at h
        have h3 := Option.some.inj h
        have hq : c = q := congrArg Prod.fst h3
        subst hq
        exact ⟨t, rfl⟩

lemma isbatch_toNat_lt (q : Char) (h : isbatch q = true) : q.toNat < 122 := by
  simp only [isbatch, isupperC, Bool.or_eq_true, Bool.and_eq_true,
             decide_eq_true_eq, beq_iff_eq] at h
  rcases h with ⟨_, h2⟩ | h2
  · omega
  · subst h2; decide

lemma entryBatchCand_shape (now : Int) (e : DirEnt) (nm : String)
    (h : nm ∈ entryBatchCand now e) :
    nm = e.name ∧ ∃ q j ctm, parseJobName e.name = some (q, j, ctm) ∧ isbatch q = true := by
  cases hp : parseJobName e.name with
  | none => simp [entryBatchCand, hp] at h
  | some t =>
    obtain ⟨q, j, ctm⟩ := t
    cases hst : e.st with
    | none => simp [entryBatchCand, hp, hst] at h
    | some b =>
      simp only [entryBatchCand, hp, hst] at h
      split_ifs at h with h1 h2 h3 h4 h5 h6 h7 <;> simp at h
      exact ⟨h, q, j, ctm, rfl, h7⟩

lemma cand_gt_init (now : Int) (es : List DirEnt) (nm : String)
    (h : nm ∈ listFlat (entryBatchCand now) es) :
    strcmpL "z2345678901234".data nm.data > 0 := by
  obtain ⟨e, _, hme⟩ := (mem_listFlat (entryBatchCand now) _ es).mp h
  obtain ⟨rfl, q, j, ctm, hp, hb⟩ := entryBatchCand_shape now e nm hme
  obtain ⟨t, ht⟩ := parse_shape e.name q j ctm hp
  have hz : "z2345678901234".data = 'z' :: "2345678901234".data := by decide
  rw [hz, ht]
  have hlt : q.toNat < Char.toNat 'z' := by
    have h1 := isbatch_toNat_lt q hb
    have h2 : Char.toNat 'z' = 122 := by decide
    omega
  exact strcmpL_head_gt 'z' q _ _ hlt

/- ===== Lemmas: the whole cycle ===== -/

lemma runLoopCycle_admitted (ci : CycleIn) :
    (runLoopCycle ci).admitted =
      (batchAdmit ci.now ci.batch_interval ci.load_avg ci.loadSample
        (scanResult ci).run_batch (scanResult ci).batch_name (nbInit ci)).1 := rfl

lemma runLoopCycle_next_batch (ci : CycleIn) :
    (runLoopCycle ci).next_batch =
      (batchAdmit ci.now ci.batch_interval ci.load_avg ci.loadSample
        (scanResult ci).run_batch (scanResult ci).batch_name (nbInit ci)).2.1 := rfl

lemma runLoopCycle_scan_pevents (ci : CycleIn) :
    (runLoopCycle ci).scan.pevents =
      (scanResult ci).pevents ++
        (match (runLoopCycle ci).admitted with
         | some nm => runFileParent nm ci.batchLinkOk
         | none => []) := by
  simp only [runLoopCycle]
  rcases hr : batchAdmit ci.now ci.batch_interval ci.load_avg ci.loadSample
      (scanResult ci).run_batch (scanResult ci).batch_name (nbInit ci) with ⟨adm, nb1, rb1⟩
  simp only [hr]
  cases adm with
  | none => split_ifs <;> simp
  | some nm => split_ifs <;> simp

lemma batchAdmit_props (now : Int) (interval : Nat) (ceiling : Rat)
    (sample : Option Rat) (rb : Nat) (bn : String) (nb : Int) :
    ((batchAdmit now interval ceiling sample rb bn nb).1.isSome = true →
      0 < rb ∧ nb ≤ now) ∧
    (0 < rb → nb ≤ now →
      (batchAdmit now interval ceiling sample rb bn nb).2.1 = now + interval) ∧
    (¬ (0 < rb ∧ nb ≤ now) →
      (batchAdmit now interval ceiling sample rb bn nb).1 = none ∧
      (batchAdmit now interval ceiling sample rb bn nb).2.1 = nb) := by
  unfold batchAdmit
  by_cases hA : 0 < rb ∧ nb ≤ now
  · by_cases hl : (match sample with | none => (0 : Rat) | some x => x) < ceiling
    · rw [if_pos hA, if_pos hl]
      exact ⟨fun _ => hA, fun _ _ => rfl, fun hno => absurd hA hno⟩
    · rw [if_pos hA, if_neg hl]
      exact ⟨fun _ => hA, fun _ _ => rfl, fun hno => absurd hA hno⟩
  · rw [if_neg hA]
    refine ⟨?_, ?_, fun _ => ⟨rfl, rfl⟩⟩
    · intro hs; simp at hs
    · intro h1 h2; exact absurd ⟨h1, h2⟩ hA

lemma mailDecision_policy (p : Int) (size fin : Nat)
    (hp : p = -1 ∨ p = 0 ∨ p = 1) :
    (mailDecision p size fin = true ↔ (p = 1 ∨ (p = 0 ∧ fin ≠ size))) := by
  rcases hp with h | h | h <;> subst h <;>
    simp only [mailDecision, Bool.or_eq_true, Bool.and_eq_true, bne_iff_ne,
               beq_iff_eq] <;> norm_num

/- ===== Claim theorems ===== -/

/-- Claim C1 is false as stated: it asserts the original queue-sigil job file
is deleted immediately after the hard-link claim, before any validation, so
that a Validator abort can never be retried.  At `c1badInp` the path is a
symbolic link, the Validator aborts, and the trace contains no
`unlinkOriginal`: the commit point lies after validation (atd.c:350), so the
job file was still present.  The abort is also not terminal: the job keeps
both links, the scan `c1ciStale` (past the staleness window) reclaims the
stale lock `=0000100000000` (atd.c:615-627), and the following scan
`c1ciRetry` claims and forks the very same job again. -/
theorem C1_cex :
    validatorAborted c1badInp = true ∧
    Ev.unlinkOriginal ∉ runFileChild c1badInp ∧
    "=0000100000000" ∈ (runLoopCycle c1ciStale).scan.unlinks ∧
    PEv.forkChild "a0000100000000" ∈ (runLoopCycle c1ciRetry).scan.pevents := by
  decide

/-- Claim C1 (amended): after the hard-link claim succeeds, the execution
child validates first; the original queue-sigil file is unlinked (the commit
point, atd.c:350) exactly when every validator check passes, and then before
any execution side effect (output creation, interpreter fork, mail).  A job
aborted by the Validator keeps its job file and lock link, and is retried
once the stale lock is reclaimed. -/
theorem C1_commit_after_validation :
    (∀ i : RunInput, Ev.unlinkOriginal ∈ runFileChild i ↔ validationOk i = true) ∧
    (∀ (i : RunInput) (hd : Header), i.header = some hd → validationOk i = true →
      runFileChild i =
        [Ev.unlinkOriginal, Ev.unlinkOldOutput, Ev.createOutput, Ev.writeHeader,
         Ev.forkExec, Ev.waitChild, Ev.unlinkOutput, Ev.unlinkLock] ++
        (if mailDecision hd.send_mail i.sizeAfterHeader i.finalSize
         then [Ev.sendMail] else [])) :=
  ⟨unlinkOriginal_iff, runFileChild_ok⟩

/-- Witness for `C1_commit_after_validation` at the fully valid run `inpOk`. -/
theorem C1_commit_after_validation_witness :
    Ev.unlinkOriginal ∈ runFileChild inpOk ∧
    runFileChild inpOk =
      [Ev.unlinkOriginal, Ev.unlinkOldOutput, Ev.createOutput, Ev.writeHeader,
       Ev.forkExec, Ev.waitChild, Ev.unlinkOutput, Ev.unlinkLock, Ev.sendMail] :=
  ⟨(C1_commit_after_validation.1 inpOk).mpr (by decide),
   (C1_commit_after_validation.2 inpOk hdrOk rfl (by decide)).trans (by decide)⟩

/-- Claim C2 is false as stated: at `c2inp` the job file has been substituted
between discovery (`c2dstat`: inode 50, size 500) and the privileged open
(`c2fst`: inode 51, size 600), with the discovery uid passed in unchanged —
yet the interpreter is forked.  The code (atd.c:308-310) compares the fresh
`lstat` of the path only against the `fstat` of the descriptor it just
opened, both taken after the open; the dev/inode/size/gid captured at
discovery are never consulted. -/
theorem C2_cex :
    c2inp.uid = c2dstat.st_uid ∧ c2inp.gid = c2dstat.st_gid ∧
    c2dstat.st_ino ≠ c2inp.fstatBuf.st_ino ∧
    c2dstat.st_size ≠ c2inp.fstatBuf.st_size ∧
    Ev.forkExec ∈ runFileChild c2inp := by
  decide

/-- Claim C2 (amended): a job is executed only when the Validator's re-derived
path metadata (`lstat`, not following symbolic links) agrees with the opened
descriptor's `fstat` on device, inode, owning uid/gid and size, the path is
not a symbolic link, the link count is at most 2, and the parsed header
declares the discovery uid.  A file substituted between the privileged open
and the path re-check is thus never executed; discovery-time dev/inode/size
are not re-checked, only the discovery uid is (via the header comparison,
atd.c:342). -/
theorem C2_validator_recheck :
    ∀ i : RunInput, Ev.forkExec ∈ runFileChild i →
      i.lstatBuf.islnk = false ∧
      i.lstatBuf.st_dev = i.fstatBuf.st_dev ∧
      i.lstatBuf.st_ino = i.fstatBuf.st_ino ∧
      i.lstatBuf.st_uid = i.fstatBuf.st_uid ∧
      i.lstatBuf.st_gid = i.fstatBuf.st_gid ∧
      i.lstatBuf.st_size = i.fstatBuf.st_size ∧
      i.fstatBuf.st_nlink ≤ 2 ∧
      ∃ hd, i.header = some hd ∧ hd.nuid = i.uid := by
  intro i hm
  have hok := forkExec_valid i hm
  obtain ⟨h1, h2, h3, h4, h5, hd, hh, h6, h7⟩ := validationOk_elim i hok
  obtain ⟨d1, d2, d3, d4, d5⟩ := statSame_elim _ _ h4
  exact ⟨h3, d1, d2, d3, d4, d5, h5, hd, hh, h7⟩

/-- Witness for `C2_validator_recheck` at the fully valid run `inpOk`. -/
theorem C2_validator_recheck_witness :
    inpOk.lstatBuf.st_ino = inpOk.fstatBuf.st_ino ∧
    inpOk.fstatBuf.st_nlink ≤ 2 := by
  have h := C2_validator_recheck inpOk (by decide)
  exact ⟨h.2.2.1, h.2.2.2.2.2.2.1⟩

/-- Claim C3 is false as stated: in the scan `c3ci` the two due jobs are
claimed and forked back to back — the daemon trace is link/fork, link/fork
with no blocking wait anywhere (the `all` check), because `run_file` returns
to the scan right after `fork` (atd.c:271-275).  The first job's validation,
interpreter run and mail disposition happen in its forked child, concurrently
with the second job's start, so the first execution does not complete before
the second begins. -/
theorem C3_cex :
    (runLoopCycle c3ci).scan.pevents =
      [PEv.link "a0000100000000", PEv.forkChild "a0000100000000",
       PEv.link "c0000200000000", PEv.forkChild "c0000200000000"] ∧
    ((runLoopCycle c3ci).scan.pevents.all fun e => ! isWaitEv e) = true := by
  decide

/-- Claim C3 (amended): within one scan cycle the daemon claims and forks due
non-batch jobs sequentially, in filename iteration order, followed by at most
the one admitted batch job; each job's execution runs in its forked child,
and the daemon never blocks waiting for a job child before continuing the
scan (no `waitJob` event is ever produced). -/
theorem C3_sequential_fork_only :
    ∀ ci : CycleIn,
      ((runLoopCycle ci).scan.pevents =
        dueJobSpawns ci.now ci.entries ++
          (match (runLoopCycle ci).admitted with
           | some nm => runFileParent nm ci.batchLinkOk
           | none => [])) ∧
      (∀ nm : String, PEv.waitJob nm ∉ (runLoopCycle ci).scan.pevents) := by
  intro ci
  have h1 := runLoopCycle_scan_pevents ci
  have h2 : (scanResult ci).pevents = dueJobSpawns ci.now ci.entries := by
    have h3 := scan_pevents ci.now ci.entries (initScanSt ci.now)
    simpa [scanResult, dueJobSpawns, initScanSt] using h3
  constructor
  · rw [h1, h2]
  · intro nm hm
    rw [h1, h2] at hm
    rcases List.mem_append.mp hm with hm | hm
    · exact waitJob_not_spawns nm ci.now ci.entries hm
    · revert hm
      cases (runLoopCycle ci).admitted with
      | none => simp
      | some j =>
        intro hm
        exact waitJob_not_parent nm j ci.batchLinkOk hm

/-- Witness for `C3_sequential_fork_only` at the two-job scan `c3ci`. -/
theorem C3_sequential_fork_only_witness :
    (runLoopCycle c3ci).scan.pevents =
      [PEv.link "a0000100000000", PEv.forkChild "a0000100000000",
       PEv.link "c0000200000000", PEv.forkChild "c0000200000000"] ∧
    PEv.waitJob "a0000100000000" ∉ (runLoopCycle c3ci).scan.pevents :=
  ⟨((C3_sequential_fork_only c3ci).1).trans (by decide),
   (C3_sequential_fork_only c3ci).2 "a0000100000000"⟩

/-- Claim C4: in every scan cycle at most one batch-class job is admitted —
the batch phase appends the parent trace of at most the single admitted
candidate — and only when the admission window has opened
(`next_batch <= now`, atd.c:670); on every admission attempt the
next-eligible time is set to `now + batch_interval` (atd.c:671) whether or
not the load check permitted execution, and outside an attempt it is left
unchanged with nothing admitted. -/
theorem C4_batch_once_per_cycle :
    ∀ ci : CycleIn,
      ((runLoopCycle ci).scan.pevents =
        (scanResult ci).pevents ++
          (match (runLoopCycle ci).admitted with
           | some nm => runFileParent nm ci.batchLinkOk
           | none => [])) ∧
      ((runLoopCycle ci).admitted.isSome = true →
        0 < (scanResult ci).run_batch ∧ nbInit ci ≤ ci.now) ∧
      (0 < (scanResult ci).run_batch → nbInit ci ≤ ci.now →
        (runLoopCycle ci).next_batch = ci.now + ci.batch_interval) ∧
      (¬ (0 < (scanResult ci).run_batch ∧ nbInit ci ≤ ci.now) →
        (runLoopCycle ci).admitted = none ∧
        (runLoopCycle ci).next_batch = nbInit ci) := by
  intro ci
  have hb := batchAdmit_props ci.now ci.batch_interval ci.load_avg ci.loadSample
    (scanResult ci).run_batch (scanResult ci).batch_name (nbInit ci)
  refine ⟨runLoopCycle_scan_pevents ci, ?_, ?_, ?_⟩
  · intro hs
    rw [runLoopCycle_admitted] at hs
    exact hb.1 hs
  · intro hrb hnb
    rw [runLoopCycle_next_batch]
    exact hb.2.1 hrb hnb
  · intro hno
    rw [runLoopCycle_admitted, runLoopCycle_next_batch]
    exact hb.2.2 hno

/-- Witness for `C4_batch_once_per_cycle` at the one-batch-job scan `c4ci`. -/
theorem C4_batch_once_per_cycle_witness :
    (0 < (scanResult c4ci).run_batch ∧ nbInit c4ci ≤ c4ci.now) ∧
    (runLoopCycle c4ci).next_batch = 160 := by
  have h := C4_batch_once_per_cycle c4ci
  refine ⟨h.2.1 (by decide), ?_⟩
  have h2 := h.2.2.1 (by decide) (by decide)
  rw [h2]
  decide

/-- Claim C5: batch admission is refused whenever the successfully sampled
1-minute load average is at or above the configured ceiling — the admission
check `currlavg[0] < load_avg` (atd.c:681) is strict — even when a due batch
candidate exists and the interval has elapsed. -/
theorem C5_load_refusal :
    ∀ (now : Int) (interval : Nat) (ceiling l : Rat) (rb : Nat) (bn : String)
      (nb : Int), ceiling ≤ l →
      (batchAdmit now interval ceiling (some l) rb bn nb).1 = none := by
  intro now interval ceiling l rb bn nb hle
  unfold batchAdmit
  by_cases hA : 0 < rb ∧ nb ≤ now
  · rw [if_pos hA]
    have hnl : ¬ ((match (some l : Option Rat) with
        | none => (0 : Rat) | some x => x) < ceiling) := not_lt.mpr hle
    rw [if_neg hnl]
  · rw [if_neg hA]

/-- Witness for `C5_load_refusal`: load 9 at ceiling 8 refuses the due
candidate. -/
theorem C5_load_refusal_witness :
    (batchAdmit 100 60 8 (some 9) 1 "b0000100000000" 90).1 = none :=
  C5_load_refusal 100 60 8 9 1 "b0000100000000" 90 (by norm_num)

/-- Claim C6 is false as stated: with conditional policy (`0`), mail is sent
whenever the output size merely differs from its size right after the header
was written — the test is `buf.st_size != size` (atd.c:495), not growth.  At
`c6inp` the output shrank from 10 to 5 and mail is nevertheless sent. -/
theorem C6_cex :
    Ev.sendMail ∈ runFileChild c6inp ∧
    c6inp.finalSize < c6inp.sizeAfterHeader := by
  decide

/-- Claim C6 (amended): after the wait, mail is sent iff the run reached
execution (validation passed) and either the policy is `always` (1), or the
policy is `conditional` (0) and the output artifact's size changed from its
size immediately after the mail header was written; mail is never sent when
the policy is `never` (-1). -/
theorem C6_mail_policy :
    ∀ (i : RunInput) (hd : Header), i.header = some hd →
      hd.send_mail = -1 ∨ hd.send_mail = 0 ∨ hd.send_mail = 1 →
      (Ev.sendMail ∈ runFileChild i ↔
        (validationOk i = true ∧
          (hd.send_mail = 1 ∨
            (hd.send_mail = 0 ∧ i.finalSize ≠ i.sizeAfterHeader)))) := by
  intro i hd hh hp
  have hmd := mailDecision_policy hd.send_mail i.sizeAfterHeader i.finalSize hp
  cases hvo : validationOk i with
  | false =>
    obtain ⟨r, hr⟩ := runFileChild_fail i hvo
    rw [hr]
    simp
  | true =>
    rw [runFileChild_ok i hd hh hvo]
    constructor
    · intro hm
      refine ⟨rfl, ?_⟩
      rcases List.mem_append.mp hm with hm | hm
      · simp at hm
      · split_ifs at hm with hdm
        · exact hmd.mp hdm
        · simp at hm
    · rintro ⟨-, hpol⟩
      have hdm := hmd.mpr hpol
      refine List.mem_append.mpr (Or.inr ?_)
      rw [if_pos hdm]
      simp

/-- Witness for `C6_mail_policy`: conditional policy with grown output sends
mail at `inpOk`. -/
theorem C6_mail_policy_witness : Ev.sendMail ∈ runFileChild inpOk :=
  (C6_mail_policy inpOk hdrOk rfl (by decide)).mpr (by decide)

/-- Claim C7: when batch candidates are due in a scan, the tracked
`batch_name` is a candidate and is `strcmp`-minimal among all of them
(atd.c:654-659, starting from the all-beating sentinel), and whatever job the
batch phase admits to the Executor is exactly that minimal candidate. -/
theorem C7_min_candidate :
    ∀ ci : CycleIn, batchCandidates ci.now ci.entries ≠ [] →
      (scanResult ci).batch_name ∈ batchCandidates ci.now ci.entries ∧
      (∀ nm ∈ batchCandidates ci.now ci.entries,
        strcmpL (scanResult ci).batch_name.data nm.data ≤ 0) ∧
      (∀ j : String, (runLoopCycle ci).admitted = some j →
        j = (scanResult ci).batch_name) := by
  intro ci hne
  have hbn : (scanResult ci).batch_name =
      List.foldl pickMin "z2345678901234" (batchCandidates ci.now ci.entries) := by
    have h3 := scan_batch_name ci.now ci.entries (initScanSt ci.now)
    simpa [scanResult, batchCandidates, initScanSt] using h3
  have hle : ∀ nm ∈ batchCandidates ci.now ci.entries,
      strcmpL (scanResult ci).batch_name.data nm.data ≤ 0 := by
    intro nm hnm
    rw [hbn]
    exact foldl_pickMin_le_mem _ _ nm hnm
  have hmem : (scanResult ci).batch_name ∈ batchCandidates ci.now ci.entries := by
    rcases foldl_pickMin_mem (batchCandidates ci.now ci.entries)
        "z2345678901234" with h | h
    · exfalso
      obtain ⟨nm0, hnm0⟩ := List.exists_mem_of_ne_nil _ hne
      have hgt := cand_gt_init ci.now ci.entries nm0 hnm0
      have hle0 := hle nm0 hnm0
      rw [hbn, h] at hle0
      omega
    · rw [hbn]
      exact h
  refine ⟨hmem, hle, ?_⟩
  intro j hj
  rw [runLoopCycle_admitted] at hj
  unfold batchAdmit at hj
  split_ifs at hj
  exact (Option.some.inj hj).symm

/-- Witness for `C7_min_candidate` at the two-candidate scan `c7ci`. -/
theorem C7_min_candidate_witness :
    (scanResult c7ci).batch_name ∈ batchCandidates c7ci.now c7ci.entries ∧
    strcmpL (scanResult c7ci).batch_name.data "B0000200000000".data ≤ 0 := by
  have h := C7_min_candidate c7ci (by decide)
  exact ⟨h.1, h.2.1 "B0000200000000" (by decide)⟩

/-- Claim C8: an entry that reaches the `=`-sigil branch of the scan (it
parses, its `stat` succeeded, it is a regular executable file) is unlinked
exactly when its link count has dropped to 1 and its encoded schedule time is
at least the staleness window in the past (atd.c:600-606); otherwise the
branch leaves the state untouched. -/
theorem C8_stale_lock_branch :
    ∀ (now : Int) (st : ScanSt) (e : DirEnt) (q : Char) (j ctm : Nat) (b : Stat),
      parseJobName e.name = some (q, j, ctm) → q = '=' →
      e.st = some b → b.isreg = true → b.ixusr = true →
      processEntry now st e =
        (if b.st_nlink = 1 ∧ (ctm : Int) * 60 + CHECK_INTERVAL ≤ now then
           { st with unlinks := st.unlinks ++ [e.name] }
         else st) := by
  intro now st e q j ctm b hp hq hst hreg hx
  subst hq
  simp [processEntry, hp, hst, hreg, hx]

/-- Witness for `C8_stale_lock_branch`: the orphaned, stale lock `c8ent` is
removed at time 10000. -/
theorem C8_stale_lock_branch_witness :
    (processEntry 10000 (initScanSt 10000) c8ent).unlinks = ["=0000100000000"] := by
  have h := C8_stale_lock_branch 10000 (initScanSt 10000) c8ent '=' 1 0
    ⟨1, 77, 1, 1000, 1000, 420, true, false, true⟩ (by decide) rfl rfl rfl rfl
  rw [h]
  decide

/-- Claim C9: the filename encoding round-trips exactly.  Decoding
(atd.c:579) an encoded name recovers the queue letter, serial and scheduled
minute, and every well-formed name (a queue letter and 13 lowercase hex
digits) decodes to values that re-encode to the same name.  The encoder is
modelled from the spec (section 6), since the submission tool is not in this
tree. -/
theorem C9_roundtrip :
    (∀ (q : Char) (s m : Nat), (isupperC q || islowerC q) = true →
       s < 16 ^ 5 → m < 16 ^ 8 →
       parseJobName (encodeJobName q s m) = some (q, s, m)) ∧
    (∀ f : String, validJobName f = true →
       parseJobName f =
         some (headCh f, hexToNat (f.data.tail.take 5),
               hexToNat (f.data.tail.drop 5)) ∧
       encodeJobName (headCh f) (hexToNat (f.data.tail.take 5))
         (hexToNat (f.data.tail.drop 5)) = f) :=
  ⟨fun q s m _ hs hm => parse_encode q s m hs hm, valid_decode_encode⟩

/-- Witness for `C9_roundtrip` at a concrete encode and a concrete valid
filename. -/
theorem C9_roundtrip_witness :
    parseJobName (encodeJobName 'a' 1 2) = some ('a', 1, 2) ∧
    encodeJobName (headCh "b0000100000000")
      (hexToNat ("b0000100000000".data.tail.take 5))
      (hexToNat ("b0000100000000".data.tail.drop 5)) = "b0000100000000" :=
  ⟨C9_roundtrip.1 'a' 1 2 (by decide) (by decide) (by decide),
   (C9_roundtrip.2 "b0000100000000" (by decide)).2⟩

/-- Claim C10: when `getloadavg` reports fewer than one sample, the load is
treated as `0.0` (atd.c:675-677), which is below any positive ceiling, so a
due batch candidate whose admission window has opened is admitted regardless
of the actual system load: load-sampling failure fails open.  (The ceiling is
always positive: `main` replaces non-positive `-l` values with the built-in
default, atd.c:746-747.) -/
theorem C10_loadfail_admits :
    ∀ (now : Int) (interval : Nat) (ceiling : Rat) (rb : Nat) (bn : String)
      (nb : Int), 0 < ceiling → 0 < rb → nb ≤ now →
      batchAdmit now interval ceiling none rb bn nb =
        (some bn, now + interval, rb - 1) := by
  intro now interval ceiling rb bn nb hc hrb hnb
  unfold batchAdmit
  have hl : (match (none : Option Rat) with
      | none => (0 : Rat) | some x => x) < ceiling := hc
  rw [if_pos ⟨hrb, hnb⟩, if_pos hl]

/-- Witness for `C10_loadfail_admits`: a failed load sample admits the due
candidate at ceiling 8. -/
theorem C10_loadfail_admits_witness :
    batchAdmit 100 60 8 none 1 "b0000100000000" 90 =
      (some "b0000100000000", 160, 0) :=
  (C10_loadfail_admits 100 60 8 1 "b0000100000000" 90 (by norm_num)
    (by decide) (by decide)).trans (by decide)
